import Mathlib

/-!
Verification of the hethers.js provider `Formatter` (field-coercion engine,
scalar coercers) and the deterministic random-byte generator, against a
shallow embedding of `src/packages/providers/lib.esm/formatter.js` and
`src/unnamed/part_000`.

JavaScript values are modelled by an inductive `JSValue`; raw objects and
canonical records are association lists `JSObject`; a thrown JS `Error` is
`JSError` (message plus the `checkKey` / `checkValue` properties that
`Formatter.check` writes onto a caught error before re-throwing).  Fallible
code returns `Except JSError`.
-/

/-- A JavaScript runtime value, as far as the formatter code observes it.
`undefined` doubles as the formatter's "omit" sentinel.  `num` carries an
exact rational (the numbers the formatter manipulates are small integers and
halves, all exactly representable); `nan` models the JS `NaN` produced by
arithmetic on non-numeric operands.  `bignum` models an opaque `BigNumber`
collaborator object (an arbitrary-precision integer).  `object` carries its
own-property list in insertion order. -/
inductive JSValue where
  | undefined : JSValue
  | null : JSValue
  | nan : JSValue
  | bool (b : Bool) : JSValue
  | num (q : ℚ) : JSValue
  | str (s : String) : JSValue
  | bignum (z : ℤ) : JSValue
  | arr (elems : List JSValue) : JSValue
  | object (fields : List (String × JSValue)) : JSValue

/-- A JS object: own properties in insertion order. -/
abbrev JSObject := List (String × JSValue)

/-- Property read `obj[k]`: first binding of `k`, `undefined` when absent. -/
def jsGet (obj : JSObject) (k : String) : JSValue :=
  match obj with
  | [] => .undefined
  | (k', v) :: rest => if k' = k then v else jsGet rest k

/-- Property write `obj[k] = v`: overwrite the existing binding in place,
otherwise append a new one (JS insertion-order semantics). -/
def jsSet (obj : JSObject) (k : String) (v : JSValue) : JSObject :=
  match obj with
  | [] => [(k, v)]
  | (k', v') :: rest => if k' = k then (k, v) :: rest else (k', v') :: jsSet rest k v

/-- Is this value the `undefined` sentinel? -/
def isUndef : JSValue → Bool
  | .undefined => true
  | _ => false

/-- JS loose equality with `null` (`value == null`): true exactly for
`null` and `undefined`. -/
def jsLooseEqNull : JSValue → Bool
  | .null => true
  | .undefined => true
  | _ => false

/-- JS `value != null`. -/
def jsLooseNeNull (v : JSValue) : Bool := ! jsLooseEqNull v

/-- JS truthiness: `undefined`, `null`, `NaN`, `false`, `0`, `""` are falsy;
every other value (including any object) is truthy. -/
def jsTruthy : JSValue → Bool
  | .undefined => false
  | .null => false
  | .nan => false
  | .bool b => b
  | .num q => ! (q = 0 : Bool)
  | .str s => ! (s = "" : Bool)
  | .bignum _ => true
  | .arr _ => true
  | .object _ => true

/-- JS `typeof value === "number"` (`NaN` is a number). -/
def typeofNumber : JSValue → Bool
  | .num _ => true
  | .nan => true
  | _ => false

/-- A thrown JS `Error`: its message, plus the `checkKey` / `checkValue`
properties that `Formatter.check` assigns onto a caught error before
re-throwing it. -/
structure JSError where
  message : String
  checkKey : Option String := none
  checkValue : Option JSValue := none

/-- A field coercer: one entry of a format specification. -/
abbrev Coercer := JSValue → Except JSError JSValue

/-- A format specification: field names with their coercers, in the
object-literal insertion order the `for (const key in format)` loop follows. -/
abbrev Spec := List (String × Coercer)

/-- `Formatter.check(format, object)`, instrumented: the first component
lists the fields whose coercer was actually invoked (in order), the second
is the returned record or the re-thrown error.  Per the source: each
coercer is applied to `object[key]`; a non-`undefined` result is bound in
the output; a thrown error gets `checkKey` / `checkValue` overwritten with
the current field and raw value and aborts the whole call. -/
def checkTrace (spec : Spec) (obj : JSObject) : List String × Except JSError JSObject :=
  match spec with
  | [] => ([], .ok [])
  | (k, c) :: rest =>
    match c (jsGet obj k) with
    | .error e => ([k], .error { e with checkKey := some k, checkValue := some (jsGet obj k) })
    | .ok v =>
      match checkTrace rest obj with
      | (tr, .error e) => (k :: tr, .error e)
      | (tr, .ok r) => (k :: tr, .ok (if isUndef v then r else (k, v) :: r))

/-- `Formatter.check(format, object)` proper: the record-or-error part. -/
def check (spec : Spec) (obj : JSObject) : Except JSError JSObject :=
  (checkTrace spec obj).2

/-- `Formatter.allowNull(format, nullValue)`: return `nullValue` on loosely
null input (`null` or `undefined`) without calling `format`, delegate
otherwise. -/
def allowNull (format : Coercer) (nullValue : JSValue) : Coercer :=
  fun value => if jsLooseEqNull value then .ok nullValue else format value

/-- `Formatter.allowFalsish(format, replaceValue)`: return `replaceValue` on
falsy input, delegate otherwise. -/
def allowFalsish (format : Coercer) (replaceValue : JSValue) : Coercer :=
  fun value => if ! jsTruthy value then .ok replaceValue else format value

/-- Map a coercer across a list, propagating the first failure. -/
def mapExcept (f : Coercer) : List JSValue → Except JSError (List JSValue)
  | [] => .ok []
  | x :: xs => do
    let y ← f x
    let ys ← mapExcept f xs
    .ok (y :: ys)

/-- `Formatter.arrayOf(format)`: require an array, map `format` over every
element in order (keeping even `undefined` results, as `result.push` does). -/
def arrayOf (format : Coercer) : Coercer :=
  fun v =>
    match v with
    | .arr xs => (mapExcept f xs).map .arr
    | _ => .error { message := "not an array" }
where f := format

/- ### Claim C1/C2 groundwork: characterising `check` -/

/-- The record `check` builds when every coercer succeeds: keep, in
specification order, each field whose coercer returned a non-`undefined`
value. -/
def specResult (spec : Spec) (obj : JSObject) : JSObject :=
  spec.filterMap fun kc =>
    match kc.2 (jsGet obj kc.1) with
    | .ok v => if isUndef v then none else some (kc.1, v)
    | .error _ => none

theorem checkTrace_snd (spec : Spec) (obj : JSObject) :
    (checkTrace spec obj).2 = check spec obj := rfl

theorem check_nil (obj : JSObject) : check [] obj = .ok [] := rfl

theorem check_cons (k : String) (c : Coercer) (rest : Spec) (obj : JSObject) :
    check ((k, c) :: rest) obj =
      match c (jsGet obj k) with
      | .error e => .error { e with checkKey := some k, checkValue := some (jsGet obj k) }
      | .ok v =>
        match check rest obj with
        | .error e => .error e
        | .ok r => .ok (if isUndef v then r else (k, v) :: r) := by
  simp only [check, checkTrace]
  rcases hc : c (jsGet obj k) with e | v
  · rfl
  · rcases h : checkTrace rest obj with ⟨tr, res⟩
    simp only [h]
    rcases res with e | r <;> rfl

theorem specResult_cons (k : String) (c : Coercer) (rest : Spec) (obj : JSObject) :
    specResult ((k, c) :: rest) obj =
      (match c (jsGet obj k) with
       | .error _ => specResult rest obj
       | .ok v =>
         if isUndef v = true then specResult rest obj else (k, v) :: specResult rest obj) := by
  rcases hc : c (jsGet obj k) with e | v
  · simp [specResult, List.filterMap_cons, hc]
  · cases hu : isUndef v <;> simp [specResult, List.filterMap_cons, hc, hu]

/-- `check` succeeds iff every coercer succeeds, and then the record is
exactly `specResult`. -/
theorem check_ok_iff (spec : Spec) (obj : JSObject) (record : JSObject) :
    check spec obj = .ok record ↔
      ((∀ kc ∈ spec, ∃ v, kc.2 (jsGet obj kc.1) = .ok v) ∧ record = specResult spec obj) := by
  induction spec generalizing record with
  | nil => simp [check_nil, specResult]
  | cons kc rest ih =>
    rcases kc with ⟨k, c⟩
    rw [check_cons]
    rcases hc : c (jsGet obj k) with e | v
    · simp only [List.mem_cons]
      constructor
      · intro h; cases h
      · rintro ⟨hall, -⟩
        rcases hall (k, c) (Or.inl rfl) with ⟨v, hv⟩
        have hv' : c (jsGet obj k) = .ok v := hv
        rw [hc] at hv'; cases hv'
    · rcases hr : check rest obj with e | r
      · simp only [List.mem_cons]
        constructor
        · intro h; cases h
        · rintro ⟨hall, -⟩
          have : ∀ kc ∈ rest, ∃ v, kc.2 (jsGet obj kc.1) = .ok v := by
            intro kc hkc; exact hall kc (Or.inr hkc)
          rcases (ih _).mpr ⟨this, rfl⟩ with h'
          rw [hr] at h'; cases h'
      · have hrest := (ih r).mp hr
        simp only [List.mem_cons, specResult_cons, hc]
        constructor
        · intro h
          injection h with h
          refine ⟨?_, ?_⟩
          · rintro kc (rfl | hkc)
            · exact ⟨v, hc⟩
            · exact hrest.1 kc hkc
          · rw [← h, hrest.2]
        · rintro ⟨-, rfl⟩
          rw [hrest.2]

theorem specResult_values (spec : Spec) (obj : JSObject) :
    ∀ p ∈ specResult spec obj, isUndef p.2 = false := by
  intro p hp
  simp only [specResult, List.mem_filterMap] at hp
  rcases hp with ⟨kc, -, h⟩
  rcases hkc : kc.2 (jsGet obj kc.1) with e | v <;> rw [hkc] at h
  · cases h
  · dsimp only at h
    by_cases hu : isUndef v = true
    · rw [if_pos hu] at h; cases h
    · rw [if_neg hu] at h
      injection h with h2
      subst h2
      simpa using hu

theorem specResult_keys (spec : Spec) (obj : JSObject) :
    ∀ p ∈ specResult spec obj, p.1 ∈ spec.map Prod.fst := by
  intro p hp
  simp only [specResult, List.mem_filterMap] at hp
  rcases hp with ⟨kc, hkc, h⟩
  rcases hc : kc.2 (jsGet obj kc.1) with e | v <;> rw [hc] at h
  · cases h
  · dsimp only at h
    by_cases hu : isUndef v = true
    · rw [if_pos hu] at h; cases h
    · rw [if_neg hu] at h
      injection h with h2
      subst h2
      exact List.mem_map_of_mem Prod.fst hkc

theorem jsGet_of_not_mem (record : JSObject) (k : String)
    (h : k ∉ record.map Prod.fst) : jsGet record k = .undefined := by
  induction record with
  | nil => rfl
  | cons p rest ih =>
    simp only [List.map_cons, List.mem_cons] at h
    push_neg at h
    rcases p with ⟨k', v⟩
    simp only [jsGet]
    rw [if_neg (fun hh => h.1 hh.symm)]
    exact ih h.2

theorem isUndef_iff (v : JSValue) : isUndef v = true ↔ v = .undefined := by
  cases v <;> simp [isUndef]

/-- On a specification with distinct field names, the record `check`
returns reads back, at each specification field, exactly what that field's
coercer returned (an omitted field reading back as `undefined`). -/
theorem specResult_jsGet (spec : Spec) (obj : JSObject)
    (hnd : (spec.map Prod.fst).Nodup) :
    ∀ k c, (k, c) ∈ spec → ∀ v, c (jsGet obj k) = .ok v →
      jsGet (specResult spec obj) k = v := by
  induction spec with
  | nil => intro k c h; cases h
  | cons kc rest ih =>
    rcases kc with ⟨k', c'⟩
    simp only [List.map_cons, List.nodup_cons] at hnd
    intro k c hmem v hv
    rcases List.mem_cons.mp hmem with heq | hmem'
    · injection heq with h1 h2
      subst h1; subst h2
      rw [specResult_cons, hv]
      dsimp only
      by_cases hu : isUndef v = true
      · rw [if_pos hu]
        rcases (isUndef_iff v).mp hu with rfl
        refine jsGet_of_not_mem _ _ fun hk => hnd.1 ?_
        rcases List.mem_map.mp hk with ⟨p, hp, hpk⟩
        have hmem2 := specResult_keys rest obj p hp
        rw [hpk] at hmem2
        exact hmem2
      · rw [if_neg hu]
        show (if k = k then v else jsGet (specResult rest obj) k) = v
        rw [if_pos rfl]
    · have hk : k' ≠ k := by
        rintro rfl
        exact hnd.1 (List.mem_map_of_mem Prod.fst hmem')
      rw [specResult_cons]
      rcases hc' : c' (jsGet obj k') with e | v' <;> dsimp only
      · exact ih hnd.2 k c hmem' v hv
      · by_cases hu : isUndef v' = true
        · rw [if_pos hu]
          exact ih hnd.2 k c hmem' v hv
        · rw [if_neg hu]
          show (if k' = k then v' else jsGet (specResult rest obj) k) = v
          rw [if_neg hk]
          exact ih hnd.2 k c hmem' v hv

theorem specResult_mem (spec : Spec) (obj : JSObject) :
    ∀ p ∈ specResult spec obj, ∃ c, (p.1, c) ∈ spec ∧ c (jsGet obj p.1) = .ok p.2 := by
  intro p hp
  simp only [specResult, List.mem_filterMap] at hp
  rcases hp with ⟨kc, hkc, h⟩
  rcases hc : kc.2 (jsGet obj kc.1) with e | v <;> rw [hc] at h
  · cases h
  · dsimp only at h
    by_cases hu : isUndef v = true
    · rw [if_pos hu] at h; cases h
    · rw [if_neg hu] at h
      injection h with h2
      subst h2
      exact ⟨kc.2, hkc, hc⟩

theorem nodup_key_unique (spec : Spec) (hnd : (spec.map Prod.fst).Nodup) :
    ∀ k (c c' : Coercer), (k, c) ∈ spec → (k, c') ∈ spec → c = c' := by
  induction spec with
  | nil => intro k c c' h; cases h
  | cons kc rest ih =>
    simp only [List.map_cons, List.nodup_cons] at hnd
    intro k c c' h1 h2
    rcases List.mem_cons.mp h1 with rfl | h1'
    · rcases List.mem_cons.mp h2 with heq | h2'
      · injection heq with _ h; exact h.symm
      · exact absurd (List.mem_map_of_mem Prod.fst h2') hnd.1
    · rcases List.mem_cons.mp h2 with rfl | h2'
      · exact absurd (List.mem_map_of_mem Prod.fst h1') hnd.1
      · exact ih hnd.2 k c c' h1' h2'

theorem checkTrace_cons (k : String) (c : Coercer) (rest : Spec) (obj : JSObject) :
    checkTrace ((k, c) :: rest) obj =
      (match c (jsGet obj k) with
       | .error e => ([k], .error { e with checkKey := some k, checkValue := some (jsGet obj k) })
       | .ok v =>
         match checkTrace rest obj with
         | (tr, .error e) => (k :: tr, .error e)
         | (tr, .ok r) => (k :: tr, .ok (if isUndef v then r else (k, v) :: r))) := rfl

/-- C1: `Formatter.check` is fail-fast.  Whenever it throws, the
specification splits as `pre ++ (k, c) :: post` where every coercer of
`pre` succeeds and `c` is the first failing coercer; the single raised
error carries the failing field name `k` (as `checkKey`), the failing raw
value `object[k]` (as `checkValue`) and the inner error's message; no
record is returned; and the invocation trace is exactly the fields of
`pre` followed by `k`, so no coercer of `post` is ever invoked. -/
theorem claim_C1_check_fail_fast (spec : Spec) (obj : JSObject) (e : JSError)
    (h : (checkTrace spec obj).2 = .error e) :
    ∃ pre k c post, spec = pre ++ (k, c) :: post ∧
      (∀ p ∈ pre, ∃ v, p.2 (jsGet obj p.1) = .ok v) ∧
      (∃ e0, c (jsGet obj k) = .error e0 ∧ e.message = e0.message) ∧
      e.checkKey = some k ∧ e.checkValue = some (jsGet obj k) ∧
      (checkTrace spec obj).1 = pre.map Prod.fst ++ [k] := by
  induction spec with
  | nil => simp [checkTrace] at h
  | cons kc rest ih =>
    rcases kc with ⟨k', c'⟩
    rw [checkTrace_cons] at h ⊢
    rcases hc : c' (jsGet obj k') with e0 | v <;> rw [hc] at h <;> dsimp only at h ⊢
    · injection h with h
      subst h
      exact ⟨[], k', c', rest, rfl, by simp, ⟨e0, hc, rfl⟩, rfl, rfl, rfl⟩
    · rcases hrest : checkTrace rest obj with ⟨tr, res⟩
      rw [hrest] at h
      rcases res with e' | r <;> dsimp only at h ⊢
      · injection h with h
        subst h
        rcases ih (by rw [hrest]) with ⟨pre, k, c, post, hspec, hpre, herr, hkey, hval, htr⟩
        rw [hrest] at htr
        dsimp only at htr
        refine ⟨(k', c') :: pre, k, c, post, by rw [hspec]; rfl, ?_, herr, hkey, hval, ?_⟩
        · intro p hp
          rcases List.mem_cons.mp hp with rfl | hp'
          · exact ⟨v, hc⟩
          · exact hpre p hp'
        · rw [htr]; rfl
      · cases h

def c1spec : Spec :=
  [("a", fun _ => .ok (.num 1)),
   ("b", fun _ => .error { message := "boom" }),
   ("c", fun _ => .ok (.num 2))]

theorem claim_C1_witness :
    ∃ pre k c post, c1spec = pre ++ (k, c) :: post ∧
      (∀ p ∈ pre, ∃ v, p.2 (jsGet [] p.1) = .ok v) ∧
      (∃ e0, c (jsGet [] k) = .error e0 ∧ "boom" = e0.message) ∧
      (some "b" : Option String) = some k ∧
      (some JSValue.undefined : Option JSValue) = some (jsGet [] k) ∧
      (checkTrace c1spec []).1 = pre.map Prod.fst ++ [k] :=
  claim_C1_check_fail_fast c1spec []
    { message := "boom", checkKey := some "b", checkValue := some JSValue.undefined } rfl

/-- C2: when `Formatter.check` succeeds, the canonical record binds no key
to the omit sentinel `undefined`; a specification field's key is present
exactly when its coercer returned a non-`undefined` value (and then reads
back as that value — in particular an explicit `null` is kept); and every
key of the record comes from a specification field whose coercer produced
its value. -/
theorem claim_C2_check_omit_semantics (spec : Spec) (obj record : JSObject)
    (hnd : (spec.map Prod.fst).Nodup) (h : check spec obj = .ok record) :
    (∀ p ∈ record, p.2 ≠ JSValue.undefined) ∧
    (∀ k c, (k, c) ∈ spec → ∀ v, c (jsGet obj k) = .ok v →
      (v = JSValue.undefined → k ∉ record.map Prod.fst) ∧
      (v ≠ JSValue.undefined → jsGet record k = v)) ∧
    (∀ p ∈ record, ∃ c, (p.1, c) ∈ spec ∧ c (jsGet obj p.1) = .ok p.2) := by
  rcases (check_ok_iff spec obj record).mp h with ⟨-, rfl⟩
  refine ⟨?_, ?_, specResult_mem spec obj⟩
  · intro p hp hu
    have := specResult_values spec obj p hp
    rw [hu] at this
    simp [isUndef] at this
  · intro k c hmem v hv
    constructor
    · rintro rfl hk
      rcases List.mem_map.mp hk with ⟨p, hp, hpk⟩
      rcases specResult_mem spec obj p hp with ⟨c', hc'mem, hc'⟩
      rw [hpk] at hc'mem hc'
      rcases nodup_key_unique spec hnd k c' c hc'mem hmem
      rw [hv] at hc'
      injection hc' with h2
      have := specResult_values spec obj p hp
      rw [← h2] at this
      simp [isUndef] at this
    · intro _
      exact specResult_jsGet spec obj hnd k c hmem v hv

def c2spec : Spec :=
  [("a", fun v => .ok v),
   ("b", fun _ => .ok .null),
   ("u", fun _ => .ok .undefined)]

def c2obj : JSObject := [("a", .str "x")]

def c2record : JSObject := [("a", .str "x"), ("b", .null)]

theorem claim_C2_witness :
    (∀ p ∈ c2record, p.2 ≠ JSValue.undefined) ∧
    (∀ k c, (k, c) ∈ c2spec → ∀ v, c (jsGet c2obj k) = .ok v →
      (v = JSValue.undefined → k ∉ c2record.map Prod.fst) ∧
      (v ≠ JSValue.undefined → jsGet c2record k = v)) ∧
    (∀ p ∈ c2record, ∃ c, (p.1, c) ∈ c2spec ∧ c (jsGet c2obj p.1) = .ok p.2) :=
  claim_C2_check_omit_semantics c2spec c2obj c2record (by decide) rfl

/-- C8: `allowNull(f, X)` returns `X` on `null` and on `undefined` (for
every inner coercer `f`, which is not invoked — the result does not depend
on `f`), and delegates to `f` on every value that is not loosely null. -/
theorem claim_C8_allowNull (f : Coercer) (X : JSValue) :
    allowNull f X .null = .ok X ∧ allowNull f X .undefined = .ok X ∧
    (∀ g : Coercer, allowNull f X .null = allowNull g X .null ∧
      allowNull f X .undefined = allowNull g X .undefined) ∧
    ∀ v, jsLooseEqNull v = false → allowNull f X v = f v := by
  refine ⟨rfl, rfl, fun g => ⟨rfl, rfl⟩, ?_⟩
  intro v hv
  simp [allowNull, hv]

def c8f : Coercer := fun v => .ok (.arr [v])

theorem claim_C8_witness :
    allowNull c8f (.num 7) .null = .ok (.num 7) ∧
    allowNull c8f (.num 7) .undefined = .ok (.num 7) ∧
    allowNull c8f (.num 7) (.num 5) = c8f (.num 5) :=
  ⟨(claim_C8_allowNull c8f (.num 7)).1,
   (claim_C8_allowNull c8f (.num 7)).2.1,
   (claim_C8_allowNull c8f (.num 7)).2.2.2 (.num 5) rfl⟩

/- ### Hex-string utilities (external @ethersproject/bytes collaborators,
modelled per their documented contracts) and the scalar hex coercers. -/

/-- The regex character class `[0-9A-Fa-f]`, as the explicit set of
characters it denotes. -/
def hexDigitChars : List Char :=
  ['0', '1', '2', '3', '4', '5', '6', '7', '8', '9',
   'A', 'B', 'C', 'D', 'E', 'F', 'a', 'b', 'c', 'd', 'e', 'f']

def isHexChar (c : Char) : Bool := decide (c ∈ hexDigitChars)

/-- `isHexString(value)` from @ethersproject/bytes (no length argument): the
string matches `^0x[0-9A-Fa-f]*$`. -/
def isHexString (s : String) : Bool :=
  match s.data with
  | c1 :: c2 :: rest => decide (c1 = '0') && decide (c2 = 'x') && rest.all isHexChar
  | _ => false

/-- JS `toLowerCase()`; on the validated hex strings the formatter
lowercases, this is ASCII lowering character by character. -/
def jsToLowerStr (s : String) : String := ⟨s.data.map Char.toLower⟩

/-- `Formatter.hex(value, strict)` on a string input: non-strict mode
prepends `0x` when `value.substring(0, 2) !== "0x"`; the (possibly
prefixed) string must then satisfy `isHexString` and is lowercased. -/
def hexStr (value : String) (strict : Bool) : Except JSError String :=
  let v := if (strict = false) ∧ value.data.take 2 ≠ ['0', 'x']
           then ⟨'0' :: 'x' :: value.data⟩ else value
  if isHexString v then .ok (jsToLowerStr v) else .error { message := "invalid hash" }

/-- `Formatter.hex(value, strict)`: the `typeof (value) === "string"` guard
sends every non-string to the `invalid hash` error. -/
def hexJS (value : JSValue) (strict : Bool) : Except JSError JSValue :=
  match value with
  | .str s => (hexStr s strict).map .str
  | _ => .error { message := "invalid hash" }

/-- `Formatter.data(value, strict)` on a string: hex plus even-length
check on the result (a thrown hex error propagates). -/
def dataStr (value : String) (strict : Bool) : Except JSError String :=
  match hexStr value strict with
  | .error e => .error e
  | .ok result =>
    if result.data.length % 2 ≠ 0 then
      .error { message := "invalid data; odd-length - " ++ value }
    else
      .ok result

/-- `Formatter.data(value, strict)` on an arbitrary value. -/
def dataJS (value : JSValue) (strict : Bool) : Except JSError JSValue :=
  match value with
  | .str s => (dataStr s strict).map .str
  | _ => .error { message := "invalid hash" }

/-- `hexDataLength(data)` from @ethersproject/bytes (external collaborator,
modelled per its contract): the byte length of an even-length `0x` hex
string, `null` (here `none`) otherwise. -/
def hexDataLength (data : String) : Option ℕ :=
  if isHexString data = false ∨ data.data.length % 2 = 1 then none
  else some ((data.data.length - 2) / 2)

/-- `Formatter.hash48(value, strict)` on a string: hex, then the result
must be exactly 48 bytes (`hexDataLength(result) !== 48` throws, which a
`null` byte length also triggers). -/
def hash48Str (value : String) (strict : Bool) : Except JSError String :=
  match hexStr value strict with
  | .error e => .error e
  | .ok result =>
    if hexDataLength result ≠ some 48 then .error { message := "invalid hash" }
    else .ok result

/-- `Formatter.hash32(value, strict)` on a string: hex, then exactly 32
bytes. -/
def hash32Str (value : String) (strict : Bool) : Except JSError String :=
  match hexStr value strict with
  | .error e => .error e
  | .ok result =>
    if hexDataLength result ≠ some 32 then .error { message := "invalid topics hash" }
    else .ok result

theorem isHexString_iff (s : String) :
    isHexString s = true ↔
      ∃ rest, s.data = '0' :: 'x' :: rest ∧ rest.all isHexChar = true := by
  unfold isHexString
  rcases hd : s.data with _ | ⟨c1, _ | ⟨c2, rest⟩⟩
  · simp
  · simp
  · simp only [Bool.and_eq_true, decide_eq_true_eq]
    constructor
    · rintro ⟨⟨rfl, rfl⟩, hall⟩
      exact ⟨rest, rfl, hall⟩
    · rintro ⟨rest', heq, hall⟩
      injection heq with h1 h2
      injection h2 with h2 h3
      subst h1; subst h2; subst h3
      exact ⟨⟨rfl, rfl⟩, hall⟩

theorem hexChar_toLower (c : Char) (h : isHexChar c = true) :
    isHexChar c.toLower = true ∧ c.toLower.toLower = c.toLower := by
  have hm := of_decide_eq_true h
  fin_cases hm <;> exact ⟨by decide, by decide⟩

theorem all_hexChar_toLower (l : List Char) (h : l.all isHexChar = true) :
    (l.map Char.toLower).all isHexChar = true := by
  induction l with
  | nil => rfl
  | cons c rest ih =>
    simp only [List.all_cons, Bool.and_eq_true] at h
    simp only [List.map_cons, List.all_cons, Bool.and_eq_true]
    exact ⟨(hexChar_toLower c h.1).1, ih h.2⟩

theorem isHexString_toLower (s : String) (h : isHexString s = true) :
    isHexString (jsToLowerStr s) = true := by
  rcases (isHexString_iff s).mp h with ⟨rest, hd, hall⟩
  apply (isHexString_iff (jsToLowerStr s)).mpr
  refine ⟨rest.map Char.toLower, ?_, all_hexChar_toLower rest hall⟩
  show (s.data.map Char.toLower) = _
  rw [hd]
  rfl

theorem jsToLowerStr_length (s : String) :
    (jsToLowerStr s).data.length = s.data.length := by
  show (s.data.map Char.toLower).length = s.data.length
  exact List.length_map s.data Char.toLower

theorem toLower_map_idem (l : List Char) (h : l.all isHexChar = true) :
    (l.map Char.toLower).map Char.toLower = l.map Char.toLower := by
  induction l with
  | nil => rfl
  | cons c r ih =>
    simp only [List.all_cons, Bool.and_eq_true] at h
    simp only [List.map_cons, List.cons.injEq]
    exact ⟨(hexChar_toLower c h.1).2, ih h.2⟩

theorem jsToLowerStr_idem (s : String) (h : isHexString s = true) :
    jsToLowerStr (jsToLowerStr s) = jsToLowerStr s := by
  rcases (isHexString_iff s).mp h with ⟨rest, hd, hall⟩
  show (⟨(s.data.map Char.toLower).map Char.toLower⟩ : String) = ⟨s.data.map Char.toLower⟩
  have h0 : '0'.toLower.toLower = '0'.toLower := by decide
  have hx : 'x'.toLower.toLower = 'x'.toLower := by decide
  rw [hd]
  simp only [List.map_cons, h0, hx, toLower_map_idem rest hall]

theorem hexStr_of_hexString (s : String) (h : isHexString s = true) :
    hexStr s false = .ok (jsToLowerStr s) := by
  have htake : s.data.take 2 = ['0', 'x'] := by
    rcases (isHexString_iff s).mp h with ⟨rest, hd, -⟩
    rw [hd]; rfl
  have hcond : ¬((false = false) ∧ s.data.take 2 ≠ ['0', 'x']) := by
    rw [htake]; simp
  unfold hexStr
  rw [if_neg hcond, if_pos h]

theorem hexStr_ok (s : String) (strict : Bool) (rs : String)
    (h : hexStr s strict = .ok rs) : isHexString rs = true ∧ jsToLowerStr rs = rs := by
  unfold hexStr at h
  dsimp only at h
  split at h
  · split at h
    next hhex =>
      injection h with h
      subst h
      exact ⟨isHexString_toLower _ hhex, jsToLowerStr_idem _ hhex⟩
    next => cases h
  · split at h
    next hhex =>
      injection h with h
      subst h
      exact ⟨isHexString_toLower _ hhex, jsToLowerStr_idem _ hhex⟩
    next => cases h

theorem dataStr_ok (s : String) (rs : String) (h : dataStr s false = .ok rs) :
    hexStr s false = .ok rs ∧ rs.data.length % 2 = 0 := by
  unfold dataStr at h
  rcases hh : hexStr s false with e | r <;> rw [hh] at h <;> dsimp only at h
  · cases h
  · split at h
    next => cases h
    next hcond =>
      injection h with h
      subst h
      exact ⟨rfl, by omega⟩

theorem hexDataLength_toLower (s : String) (h : isHexString s = true) :
    hexDataLength (jsToLowerStr s) = hexDataLength s := by
  unfold hexDataLength
  rw [isHexString_toLower s h, h, jsToLowerStr_length]

/-- C6: `hash48` maps every valid `0x`-prefixed hex string of exactly 48
bytes to its lowercase form, and throws the `invalid hash` validation
error on every hex string whose byte length is not 48 (including
odd-length hex strings, whose `hexDataLength` is `null`). -/
theorem claim_C6_hash48 (s : String) (h : isHexString s = true) :
    (hexDataLength s = some 48 → hash48Str s false = .ok (jsToLowerStr s)) ∧
    (hexDataLength s ≠ some 48 →
      hash48Str s false = .error { message := "invalid hash" }) := by
  have hhex := hexStr_of_hexString s h
  have hlen := hexDataLength_toLower s h
  constructor
  · intro h48
    unfold hash48Str
    rw [hhex]
    dsimp only
    rw [hlen, if_neg (by simp [h48])]
  · intro h48
    unfold hash48Str
    rw [hhex]
    dsimp only
    rw [hlen, if_pos h48]

def c6str : String :=
  "0x" ++ "0123456789abcdef0123456789ABCDEF0123456789abcdef" ++
    "0123456789abcdef0123456789ABCDEF0123456789abcdef"

theorem claim_C6_witness :
    isHexString c6str = true ∧ hash48Str c6str false = .ok (jsToLowerStr c6str) :=
  ⟨by decide, (claim_C6_hash48 c6str (by decide)).1 (by decide)⟩

/-- C7: `data` is idempotent on its successes — feeding a successful
result back through `data` returns it unchanged — and `data(v)` fails
exactly when `hex(v)` fails or the hex result has an odd character count
(odd-length payload). -/
theorem claim_C7_data_idempotent (v : JSValue) :
    (∀ r, dataJS v false = .ok r → dataJS r false = .ok r) ∧
    ((∃ e, dataJS v false = .error e) ↔
      (∃ e, hexJS v false = .error e) ∨
      (∃ r, hexJS v false = .ok (.str r) ∧ r.data.length % 2 = 1)) := by
  have aux : ∀ w : JSValue, dataJS w false = .error { message := "invalid hash" } →
      hexJS w false = .error { message := "invalid hash" } →
      ((∀ r, dataJS w false = .ok r → dataJS r false = .ok r) ∧
       ((∃ e, dataJS w false = .error e) ↔
         (∃ e, hexJS w false = .error e) ∨
         (∃ r, hexJS w false = .ok (.str r) ∧ r.data.length % 2 = 1))) := by
    intro w hd hh
    refine ⟨fun r hr => ?_, ?_⟩
    · rw [hd] at hr; cases hr
    · constructor
      · intro _; exact Or.inl ⟨_, hh⟩
      · intro _; exact ⟨_, hd⟩
  cases v with
  | str s =>
    refine ⟨?_, ?_⟩
    · intro r hr
      have hr' : (dataStr s false).map JSValue.str = .ok r := hr
      rcases hres : dataStr s false with e | rs <;> rw [hres] at hr'
      · cases hr'
      · injection hr' with hr'
        subst hr'
        rcases dataStr_ok s rs hres with ⟨hhex, heven⟩
        rcases hexStr_ok s false rs hhex with ⟨hishex, hfix⟩
        show (dataStr rs false).map JSValue.str = .ok (.str rs)
        unfold dataStr
        rw [hexStr_of_hexString rs hishex, hfix]
        dsimp only
        rw [if_neg (by omega)]
        rfl
    · rcases hh : hexStr s false with e | r
      · constructor
        · intro _
          refine Or.inl ⟨e, ?_⟩
          show (hexStr s false).map JSValue.str = _
          rw [hh]; rfl
        · intro _
          refine ⟨e, ?_⟩
          show (dataStr s false).map JSValue.str = _
          unfold dataStr; rw [hh]; rfl
      · by_cases hodd : r.data.length % 2 = 1
        · constructor
          · intro _
            refine Or.inr ⟨r, ?_, hodd⟩
            show (hexStr s false).map JSValue.str = .ok (.str r)
            rw [hh]; rfl
          · intro _
            refine ⟨{ message := "invalid data; odd-length - " ++ s }, ?_⟩
            show (dataStr s false).map JSValue.str = _
            unfold dataStr; rw [hh]; dsimp only
            rw [if_pos (by omega)]
            rfl
        · constructor
          · rintro ⟨e', he'⟩
            have hthis : (dataStr s false).map JSValue.str = .error e' := he'
            unfold dataStr at hthis
            rw [hh] at hthis
            dsimp only at hthis
            rw [if_neg (by omega)] at hthis
            cases hthis
          · rintro (⟨e', he'⟩ | ⟨r', hr', hodd'⟩)
            · have hthis : (hexStr s false).map JSValue.str = .error e' := he'
              rw [hh] at hthis; cases hthis
            · have hthis : (hexStr s false).map JSValue.str = .ok (.str r') := hr'
              rw [hh] at hthis
              injection hthis with hthis
              injection hthis with hthis
              subst hthis
              omega
  | undefined => exact aux _ rfl rfl
  | null => exact aux _ rfl rfl
  | nan => exact aux _ rfl rfl
  | bool b => exact aux _ rfl rfl
  | num q => exact aux _ rfl rfl
  | bignum z => exact aux _ rfl rfl
  | arr xs => exact aux _ rfl rfl
  | object fs => exact aux _ rfl rfl

theorem claim_C7_witness :
    dataJS (.str "0xab") false = .ok (.str "0xab") :=
  (claim_C7_data_idempotent (.str "0xAB")).1 (.str "0xab") rfl

/- ### Timestamp validation (claim C3) -/

/-- The regex character class `[0-9]`, as the explicit set of characters
it denotes. -/
def digitChars : List Char := ['0', '1', '2', '3', '4', '5', '6', '7', '8', '9']

def isDigitChar (c : Char) : Bool := decide (c ∈ digitChars)

/-- Consume exactly `n` digit characters from the front, returning the
rest of the input, or `none` if fewer than `n` digits lead the input. -/
def takeDigits : ℕ → List Char → Option (List Char)
  | 0, l => some l
  | _ + 1, [] => none
  | n + 1, c :: l => if isDigitChar c then takeDigits n l else none

/-- Does the regex `([0-9]){10}[.]([0-9]){9}` match at the head of `l`
(with arbitrary trailing input)? -/
def matchTsAt (l : List Char) : Bool :=
  match takeDigits 10 l with
  | some (c :: r) => decide (c = '.') && (takeDigits 9 r).isSome
  | _ => false

/-- Unanchored regex search, as `String.prototype.match` performs it: try
the pattern at every start position. -/
def searchTs (l : List Char) : Bool :=
  match l with
  | [] => matchTsAt []
  | c :: r => matchTsAt (c :: r) || searchTs r

/-- `Formatter.timestamp(value)`: the source tests
`value.match(/([0-9]){10}[.]([0-9]){9}/)` — a pattern with no `^`/`$`
anchors — and throws `bad timestamp format` only when the unanchored
search finds no match anywhere in the string; otherwise it returns the
string unchanged. -/
def timestampStr (value : String) : Except JSError String :=
  if searchTs value.data = false then .error { message := "bad timestamp format" }
  else .ok value

theorem takeDigits_eq_some (n : ℕ) :
    ∀ l r : List Char, takeDigits n l = some r ↔
      ∃ b, l = b ++ r ∧ b.length = n ∧ b.all isDigitChar = true := by
  induction n with
  | zero =>
    intro l r
    constructor
    · intro h
      injection h with h
      exact ⟨[], by simp [h], rfl, rfl⟩
    · rintro ⟨b, rfl, hb, -⟩
      rw [List.length_eq_zero.mp hb]
      rfl
  | succ n ih =>
    intro l r
    cases l with
    | nil =>
      constructor
      · intro h; cases h
      · rintro ⟨b, hb, hlen, -⟩
        rcases List.append_eq_nil.mp hb.symm with ⟨rfl, -⟩
        cases hlen
    | cons c t =>
      show (if isDigitChar c then takeDigits n t else none) = some r ↔ _
      by_cases hc : isDigitChar c
      · rw [if_pos hc, ih t r]
        constructor
        · rintro ⟨b, rfl, hlen, hall⟩
          exact ⟨c :: b, rfl, by simp [hlen], by simp [List.all_cons, hc, hall]⟩
        · rintro ⟨b, hb, hlen, hall⟩
          cases b with
          | nil => cases hlen
          | cons c' b' =>
            injection hb with h1 h2
            subst h1
            simp only [List.all_cons, Bool.and_eq_true] at hall
            exact ⟨b', h2, by simpa using hlen, hall.2⟩
      · rw [if_neg hc]
        constructor
        · intro h; cases h
        · rintro ⟨b, hb, hlen, hall⟩
          cases b with
          | nil => cases hlen
          | cons c' b' =>
            injection hb with h1 h2
            subst h1
            simp only [List.all_cons, Bool.and_eq_true] at hall
            exact absurd hall.1 hc

theorem matchTsAt_iff (l : List Char) :
    matchTsAt l = true ↔
      ∃ b c r, l = b ++ '.' :: (c ++ r) ∧
        b.length = 10 ∧ b.all isDigitChar = true ∧
        c.length = 9 ∧ c.all isDigitChar = true := by
  unfold matchTsAt
  rcases h10 : takeDigits 10 l with - | rest
  · constructor
    · intro h; cases h
    · rintro ⟨b, c, r, heq, hb, hab, hc, hac⟩
      have : takeDigits 10 l = some ('.' :: (c ++ r)) :=
        (takeDigits_eq_some 10 l _).mpr ⟨b, heq, hb, hab⟩
      rw [h10] at this
      cases this
  · cases rest with
    | nil =>
      constructor
      · intro h; cases h
      · rintro ⟨b, c, r, heq, hb, hab, hc, hac⟩
        have : takeDigits 10 l = some ('.' :: (c ++ r)) :=
          (takeDigits_eq_some 10 l _).mpr ⟨b, heq, hb, hab⟩
        rw [h10] at this
        cases this
    | cons ch r2 =>
      simp only [Bool.and_eq_true, decide_eq_true_eq, Option.isSome_iff_exists]
      constructor
      · rintro ⟨rfl, rem, h9⟩
        rcases (takeDigits_eq_some 10 l _).mp h10 with ⟨b, rfl, hb, hab⟩
        rcases (takeDigits_eq_some 9 r2 _).mp h9 with ⟨c, rfl, hc, hac⟩
        exact ⟨b, c, rem, rfl, hb, hab, hc, hac⟩
      · rintro ⟨b, c, r, heq, hb, hab, hc, hac⟩
        have h10' : takeDigits 10 l = some ('.' :: (c ++ r)) :=
          (takeDigits_eq_some 10 l _).mpr ⟨b, heq, hb, hab⟩
        rw [h10] at h10'
        injection h10' with h10'
        injection h10' with hch hr2
        subst hch
        refine ⟨rfl, r, ?_⟩
        rw [hr2]
        exact (takeDigits_eq_some 9 _ _).mpr ⟨c, rfl, hc, hac⟩

theorem searchTs_iff (l : List Char) :
    searchTs l = true ↔ ∃ a r, l = a ++ r ∧ matchTsAt r = true := by
  induction l with
  | nil =>
    show matchTsAt [] = true ↔ _
    constructor
    · intro h; exact ⟨[], [], rfl, h⟩
    · rintro ⟨a, r, heq, hm⟩
      rcases List.append_eq_nil.mp heq.symm with ⟨rfl, rfl⟩
      exact hm
  | cons c t ih =>
    show (matchTsAt (c :: t) || searchTs t) = true ↔ _
    rw [Bool.or_eq_true, ih]
    constructor
    · rintro (h | ⟨a, r, rfl, hm⟩)
      · exact ⟨[], c :: t, rfl, h⟩
      · exact ⟨c :: a, r, rfl, hm⟩
    · rintro ⟨a, r, heq, hm⟩
      cases a with
      | nil =>
        rw [List.nil_append] at heq
        rw [← heq] at hm
        exact Or.inl hm
      | cons c' a' =>
        injection heq with h1 h2
        exact Or.inr ⟨a', r, h2, hm⟩

/-- Modelled from the spec: the anchored pattern `^\d{10}\.\d{9}$` that
claim C3 ascribes to `timestamp` — exactly ten digits, one dot, nine
digits, and nothing else. -/
def specAnchoredTimestamp (s : String) : Bool :=
  match takeDigits 10 s.data with
  | some (c :: r) => decide (c = '.') && decide (takeDigits 9 r = some [])
  | _ => false

/-- C3 counterexample: the string `"1234567890.1234567890"` (ten digits, a
dot, TEN digits) does not match the claimed anchored pattern
`^\d{10}\.\d{9}$`, yet `Formatter.timestamp` accepts it and returns it
unchanged, because the source regex carries no anchors and matches a
proper substring. -/
theorem claim_C3_counterexample :
    specAnchoredTimestamp "1234567890.1234567890" = false ∧
    timestampStr "1234567890.1234567890" = .ok "1234567890.1234567890" :=
  ⟨by decide, rfl⟩

/-- C3 (amended): for every string, `timestamp` returns the string
unchanged exactly when the string contains — at any position, with
arbitrary surrounding characters — a substring of ten digits, a dot and
nine digits (the unanchored `\d{10}\.\d{9}`), and otherwise raises the
`bad timestamp format` validation error. -/
theorem claim_C3_timestamp_unanchored (s : String) :
    (timestampStr s = .ok s ↔
      ∃ a b c r, s.data = a ++ (b ++ '.' :: (c ++ r)) ∧
        b.length = 10 ∧ b.all isDigitChar = true ∧
        c.length = 9 ∧ c.all isDigitChar = true) ∧
    (timestampStr s = .ok s ∨
      timestampStr s = .error { message := "bad timestamp format" }) := by
  unfold timestampStr
  cases hs : searchTs s.data with
  | false =>
    rw [if_pos rfl]
    constructor
    · constructor
      · intro h; cases h
      · rintro ⟨a, b, c, r, heq, hb, hab, hc, hac⟩
        have : searchTs s.data = true :=
          (searchTs_iff s.data).mpr ⟨a, b ++ '.' :: (c ++ r), heq,
            (matchTsAt_iff _).mpr ⟨b, c, r, rfl, hb, hab, hc, hac⟩⟩
        rw [hs] at this
        cases this
    · exact Or.inr rfl
  | true =>
    rw [if_neg (by simp)]
    constructor
    · constructor
      · intro _
        rcases (searchTs_iff s.data).mp hs with ⟨a, r, heq, hm⟩
        rcases (matchTsAt_iff r).mp hm with ⟨b, c, rem, rfl, hb, hab, hc, hac⟩
        exact ⟨a, b, c, rem, heq, hb, hab, hc, hac⟩
      · intro _; rfl
    · exact Or.inl rfl

/- ### Deterministic byte generator (src/unnamed/part_000) -/

/-- Contract of the external `keccak256` collaborator: every digest is 32
bytes, each in `[0, 256)`. -/
def keccakOk (hash : List ℕ → List ℕ) : Prop :=
  ∀ bs, (hash bs).length = 32 ∧ ∀ b ∈ hash bs, b < 256

/-- UTF-8 bytes of the seed (`hethers.utils.toUtf8Bytes`). -/
def utf8Bytes (s : String) : List ℕ := s.toUTF8.toList.map (fun b => b.toNat)

/-- The `while (result.length < upper)` chain-extension loop:
`result = concat(result, keccak256(result))`.  The source loop has no
guard against an empty digest; the `ext = []` test below only serves the
termination argument and never fires for a hash meeting `keccakOk`. -/
def chainExtend (hash : List ℕ → List ℕ) (upper : ℤ) (result : List ℕ) : List ℕ :=
  if hlt : (result.length : ℤ) < upper then
    let ext := hash result
    if hext : ext = [] then result
    else chainExtend hash upper (result ++ ext)
  else result
termination_by (upper - result.length).toNat
decreasing_by
  simp only [List.length_append]
  have hlen : 0 < (hash result).length := List.length_pos.mpr hext
  omega

/-- JS `Uint8Array.prototype.slice(0, end)`: a negative `end` counts back
from the end of the array; the result is the prefix up to the clamped
index. -/
def jsSliceEnd (l : List ℕ) (e : ℤ) : List ℕ :=
  if e < 0 then l.take (max ((l.length : ℤ) + e) 0).toNat
  else l.take e.toNat

/-- `randomBytes(seed, lower, upper?)`, parameterised by the external
`keccak256` collaborator.  JS `!upper` is true both for an omitted
argument and for `0`, so either turns `upper` into `lower`.  The three
`top` bytes are combined by `(top[0] << 16) | (top[1] << 8) | top[2]`,
which for bytes below 256 is exactly the arithmetic sum used here
(an out-of-range index, impossible under `keccakOk`, defaults to 0). -/
def randomBytes (hash : List ℕ → List ℕ) (seed : String) (lower : ℤ)
    (upperOpt : Option ℤ) : List ℕ :=
  let upper : ℤ := match upperOpt with
    | none => lower
    | some u => if u = 0 then lower else u
  if upper = 0 ∧ upper = lower then []
  else
    let result := chainExtend hash upper (hash (utf8Bytes seed))
    let top := hash result
    let percent : ℚ :=
      ((top.getD 0 0 * 65536 + top.getD 1 0 * 256 + top.getD 2 0 : ℕ) : ℚ) / 16777216
    jsSliceEnd result (lower + ⌊((upper : ℚ) - (lower : ℚ)) * percent⌋)

/-- `randomNumber(seed, lower, upper)`: draw `randomBytes(seed, 3)`, read
the three bytes as a 24-bit fraction `percent ∈ [0, 1)`, and return
`lower + Math.floor((upper - lower) * percent)`. -/
def randomNumber (hash : List ℕ → List ℕ) (seed : String) (lower upper : ℤ) : ℤ :=
  let top := randomBytes hash seed 3 none
  let percent : ℚ :=
    ((top.getD 0 0 * 65536 + top.getD 1 0 * 256 + top.getD 2 0 : ℕ) : ℚ) / 16777216
  lower + ⌊((upper : ℚ) - (lower : ℚ)) * percent⌋

theorem chainExtend_of_ge (hash : List ℕ → List ℕ) (upper : ℤ) (result : List ℕ)
    (h : ¬((result.length : ℤ) < upper)) : chainExtend hash upper result = result := by
  unfold chainExtend
  rw [dif_neg h]

theorem randomBytes_three (hash : List ℕ → List ℕ) (hk : keccakOk hash) (seed : String) :
    randomBytes hash seed 3 none = (hash (utf8Bytes seed)).take 3 := by
  unfold randomBytes
  dsimp only
  rw [if_neg (by norm_num)]
  have hbase := (hk (utf8Bytes seed)).1
  rw [chainExtend_of_ge hash 3 _ (by rw [hbase]; norm_num)]
  simp only [sub_self, zero_mul, Int.floor_zero, add_zero]
  unfold jsSliceEnd
  rw [if_neg (by norm_num)]
  rfl

/-- C5: for every hash collaborator meeting the 32-byte digest contract,
every seed string and all integers `lower < upper`, `randomNumber` returns
an integer in the half-open range `[lower, upper)`: the 24-bit `percent`
fraction is strictly below 1, so the floored offset never reaches
`upper - lower`. -/
theorem claim_C5_randomNumber_range (hash : List ℕ → List ℕ) (hk : keccakOk hash)
    (seed : String) (lower upper : ℤ) (h : lower < upper) :
    lower ≤ randomNumber hash seed lower upper ∧
    randomNumber hash seed lower upper < upper := by
  unfold randomNumber
  dsimp only
  rw [randomBytes_three hash hk seed]
  obtain ⟨hlen, hbytes⟩ := hk (utf8Bytes seed)
  set base := hash (utf8Bytes seed) with hbase
  have htlen : (base.take 3).length = 3 := by
    rw [List.length_take, hlen]
    norm_num
  have hb : ∀ i, i < 3 → (base.take 3).getD i 0 < 256 := by
    intro i hi
    rw [List.getD_eq_getElem _ _ (by omega)]
    exact hbytes _ (List.mem_of_mem_take (List.getElem_mem _))
  set k : ℕ := (base.take 3).getD 0 0 * 65536 + (base.take 3).getD 1 0 * 256 +
    (base.take 3).getD 2 0 with hkdef
  have hklt : k < 16777216 := by
    have h0 := hb 0 (by norm_num)
    have h1 := hb 1 (by norm_num)
    have h2 := hb 2 (by norm_num)
    omega
  have hp0 : (0 : ℚ) ≤ (k : ℚ) / 16777216 :=
    div_nonneg (Nat.cast_nonneg k) (by norm_num)
  have hp1 : (k : ℚ) / 16777216 < 1 := by
    rw [div_lt_one (by norm_num)]
    exact_mod_cast hklt
  have hd : (0 : ℚ) < (upper : ℚ) - (lower : ℚ) := by
    rw [sub_pos]
    exact_mod_cast h
  constructor
  · have hfl : (0 : ℤ) ≤ ⌊((upper : ℚ) - (lower : ℚ)) * ((k : ℚ) / 16777216)⌋ := by
      rw [Int.le_floor]
      have hmul := mul_nonneg hd.le hp0
      simpa using hmul
    omega
  · have : ⌊((upper : ℚ) - (lower : ℚ)) * ((k : ℚ) / 16777216)⌋ < upper - lower := by
      rw [Int.floor_lt]
      push_cast
      calc ((upper : ℚ) - (lower : ℚ)) * ((k : ℚ) / 16777216)
          < ((upper : ℚ) - (lower : ℚ)) * 1 := by
            exact mul_lt_mul_of_pos_left hp1 hd
        _ = (upper : ℚ) - (lower : ℚ) := by ring
    omega

def hashZero : List ℕ → List ℕ := fun _ => List.replicate 32 0

theorem claim_C5_witness :
    keccakOk hashZero ∧
    5 ≤ randomNumber hashZero "seed" 5 10 ∧ randomNumber hashZero "seed" 5 10 < 10 := by
  have hk : keccakOk hashZero := by
    intro bs
    refine ⟨List.length_replicate 32 0, ?_⟩
    intro b hb
    rw [List.eq_of_mem_replicate hb]
    norm_num
  exact ⟨hk, (claim_C5_randomNumber_range hashZero hk "seed" 5 10 (by norm_num)).1,
    (claim_C5_randomNumber_range hashZero hk "seed" 5 10 (by norm_num)).2⟩

/- ### Record formatters: external collaborators and coercers -/

/-- External collaborators the `Formatter` consumes as black boxes:
address resolution and checksum (@hethers/address), access-list
normalisation (@hethers/transactions), and the arbitrary-precision
`BigNumber` constructor with its safe-range `toNumber`
(@ethersproject/bignumber).  The record-level claims hold for every
implementation, so the embedding is parameterised by them. -/
structure ExtCollab where
  getAddress : String → Except JSError String
  getAddressFromAccount : String → Except JSError String
  accessListify : JSValue → Except JSError JSValue
  bigNumFrom : JSValue → Except JSError ℤ
  toNumber : ℤ → Except JSError ℤ

/-- JS `value.toString()` as the `address` coercer observes it: strings
return themselves, booleans and integral numbers print, `null` and
`undefined` throw a TypeError; remaining shapes are unused by every claim
and modelled as errors. -/
def jsToString (v : JSValue) : Except JSError String :=
  match v with
  | .str s => .ok s
  | .bool b => .ok (if b then "true" else "false")
  | .num q =>
    if q.den = 1 then .ok (toString q.num)
    else .error { message := "toString of a non-integral number not modelled" }
  | .null => .error { message := "TypeError: null has no toString" }
  | .undefined => .error { message := "TypeError: undefined has no toString" }
  | _ => .error { message := "toString of this shape not modelled" }

/-- JS strict equality `value === "s"`. -/
def jsStrictEqStr (v : JSValue) (s : String) : Bool :=
  match v with
  | .str t => decide (t = s)
  | _ => false

/-- `Formatter.address(value)`: `value.toString()`, account-alias
resolution when the string contains a `.`, then `getAddress`. -/
def addressC (ext : ExtCollab) : Coercer := fun value => do
  let s ← jsToString value
  let s2 ← if decide ('.' ∈ s.data) then ext.getAddressFromAccount s else pure s
  let a ← ext.getAddress s2
  pure (.str a)

/-- `Formatter.bigNumber(value)`: `BigNumber.from(value)`. -/
def bigNumberC (ext : ExtCollab) : Coercer := fun value =>
  (ext.bigNumFrom value).map .bignum

/-- `Formatter.number(value)`: `"0x"` maps to 0, otherwise
`BigNumber.from(value).toNumber()`. -/
def numberC (ext : ExtCollab) : Coercer := fun value =>
  if jsStrictEqStr value "0x" = true then .ok (.num 0)
  else do
    let z ← ext.bigNumFrom value
    let n ← ext.toNumber z
    pure (.num (n : ℚ))

/-- `Formatter.type(value)`: `"0x"` and loosely-null values map to 0,
otherwise as `number`. -/
def typeC (ext : ExtCollab) : Coercer := fun value =>
  if jsStrictEqStr value "0x" = true ∨ jsLooseEqNull value = true then .ok (.num 0)
  else do
    let z ← ext.bigNumFrom value
    let n ← ext.toNumber z
    pure (.num (n : ℚ))

/-- `Formatter.accessList(accessList)`: `accessListify(accessList || [])`. -/
def accessListC (ext : ExtCollab) : Coercer := fun value =>
  ext.accessListify (if jsTruthy value then value else .arr [])

/-- The `hash48` format entry: `hex` rejects every non-string with
`invalid hash`. -/
def hash48C : Coercer := fun value =>
  match value with
  | .str s => (hash48Str s false).map .str
  | _ => .error { message := "invalid hash" }

/-- The `hash32` format entry (the non-string error comes from `hex`). -/
def hash32C : Coercer := fun value =>
  match value with
  | .str s => (hash32Str s false).map .str
  | _ => .error { message := "invalid hash" }

/-- The `data` format entry (`strict` omitted, hence falsy). -/
def dataC : Coercer := fun value => dataJS value false

/-- The `timestamp` format entry: `value.match` requires a string; a
non-string raw value throws a TypeError that `check` catches. -/
def timestampC : Coercer := fun value =>
  match value with
  | .str s => (timestampStr s).map .str
  | _ => .error { message := "TypeError: value.match is not a function" }

/-- `hexZeroPad(value, 32)` from @ethersproject/bytes on an already
validated hex string: left-pad the payload with zeros to 32 bytes,
throwing when it is longer. -/
def hexZeroPad32 (s : String) : Except JSError String :=
  if s.data.length > 66 then .error { message := "value out of range" }
  else .ok ⟨'0' :: 'x' :: (List.replicate (66 - s.data.length) '0' ++ s.data.drop 2)⟩

/-- `Formatter.uint256(value)`: requires a hex string, zero-pads it to 32
bytes. -/
def uint256C : Coercer := fun value =>
  match value with
  | .str s =>
    if isHexString s then (hexZeroPad32 s).map .str
    else .error { message := "invalid uint256" }
  | _ => .error { message := "invalid uint256" }

/-- The `formats.receiptLog` specification. -/
def receiptLogFormat (ext : ExtCollab) : Spec :=
  [("transactionIndex", numberC ext),
   ("transactionHash", hash48C),
   ("address", addressC ext),
   ("topics", arrayOf hash32C),
   ("data", dataC),
   ("logIndex", numberC ext)]

/-- `Formatter.receiptLog(value)`: `check(formats.receiptLog, value)`.
A primitive raw value reads all its properties as `undefined`;
loosely-null raw values throw on property access. -/
def receiptLogC (ext : ExtCollab) : Coercer := fun value =>
  match value with
  | .object fields => (check (receiptLogFormat ext) fields).map .object
  | .null => .error { message := "TypeError: cannot read properties of null" }
  | .undefined => .error { message := "TypeError: cannot read properties of undefined" }
  | _ => (check (receiptLogFormat ext) []).map .object

/-- The `formats.receipt` specification (one-argument `allowNull` leaves
`nullValue` as `undefined`, the omit sentinel). -/
def receiptFormat (ext : ExtCollab) : Spec :=
  [("to", allowNull (addressC ext) .null),
   ("from", allowNull (addressC ext) .null),
   ("contractAddress", allowNull (addressC ext) .null),
   ("timestamp", timestampC),
   ("gasUsed", bigNumberC ext),
   ("logsBloom", allowNull dataC .undefined),
   ("transactionHash", hash48C),
   ("logs", arrayOf (receiptLogC ext)),
   ("cumulativeGasUsed", bigNumberC ext),
   ("status", allowNull (numberC ext) .undefined),
   ("type", typeC ext)]

/-- `Formatter.receipt(value)`: apply the `receipt` specification, then
set `byzantium` to `true` whenever the coerced `status` is not loosely
null. -/
def receipt (ext : ExtCollab) (value : JSObject) : Except JSError JSObject :=
  match check (receiptFormat ext) value with
  | .error e => .error e
  | .ok result =>
    .ok (if jsLooseNeNull (jsGet result "status") = true
         then jsSet result "byzantium" (.bool true)
         else result)

theorem jsGet_jsSet_self (obj : JSObject) (k : String) (v : JSValue) :
    jsGet (jsSet obj k v) k = v := by
  induction obj with
  | nil => simp [jsSet, jsGet]
  | cons p rest ih =>
    rcases p with ⟨k', v'⟩
    by_cases hk : k' = k
    · subst hk
      simp [jsSet, jsGet]
    · simp only [jsSet, if_neg hk, jsGet]
      exact ih

theorem jsGet_jsSet_ne (obj : JSObject) (k k' : String) (v : JSValue) (h : k ≠ k') :
    jsGet (jsSet obj k v) k' = jsGet obj k' := by
  induction obj with
  | nil => simp [jsSet, jsGet, h]
  | cons p rest ih =>
    rcases p with ⟨k0, v0⟩
    by_cases hk : k0 = k
    · subst hk
      simp only [jsSet, if_pos rfl, jsGet]
      rw [if_neg h, if_neg h]
    · simp only [jsSet, if_neg hk, jsGet]
      by_cases hk' : k0 = k'
      · rw [if_pos hk', if_pos hk']
      · rw [if_neg hk', if_neg hk']
        exact ih

theorem check_ok_keys (spec : Spec) (obj record : JSObject)
    (h : check spec obj = .ok record) (k : String) (hk : k ∉ spec.map Prod.fst) :
    jsGet record k = .undefined ∧ k ∉ record.map Prod.fst := by
  rcases (check_ok_iff spec obj record).mp h with ⟨-, rfl⟩
  have hmem : k ∉ (specResult spec obj).map Prod.fst := by
    intro hx
    rcases List.mem_map.mp hx with ⟨p, hp, hpk⟩
    have hpmem := specResult_keys spec obj p hp
    rw [hpk] at hpmem
    exact hk hpmem
  exact ⟨jsGet_of_not_mem _ _ hmem, hmem⟩

/-- C9: whenever `Formatter.receipt` succeeds, the result carries
`byzantium = true` exactly when the coerced `status` field is present and
non-null; and when the raw `status` is `null` the result record contains
no `byzantium` key at all (the `status` coercer returns the omit sentinel,
so the coerced `status` is absent and the flag is never written). -/
theorem claim_C9_receipt_byzantium (ext : ExtCollab) (obj record : JSObject)
    (h : receipt ext obj = .ok record) :
    ((jsGet record "byzantium" = .bool true) ↔
      jsLooseNeNull (jsGet record "status") = true) ∧
    (jsGet obj "status" = .null → "byzantium" ∉ record.map Prod.fst) := by
  unfold receipt at h
  rcases hch : check (receiptFormat ext) obj with e | r <;> rw [hch] at h
  · cases h
  · injection h with h
    subst h
    have hbyznotin : "byzantium" ∉ (receiptFormat ext).map Prod.fst := by
      show "byzantium" ∉ ["to", "from", "contractAddress", "timestamp", "gasUsed",
        "logsBloom", "transactionHash", "logs", "cumulativeGasUsed", "status", "type"]
      decide
    obtain ⟨hbyzget, hbyzmem⟩ := check_ok_keys _ _ _ hch "byzantium" hbyznotin
    by_cases hcond : jsLooseNeNull (jsGet r "status") = true
    · rw [if_pos hcond]
      constructor
      · constructor
        · intro _
          rw [jsGet_jsSet_ne r "byzantium" "status" (.bool true) (by decide)]
          exact hcond
        · intro _
          exact jsGet_jsSet_self r "byzantium" (.bool true)
      · intro hnull
        exfalso
        have hmem : ("status", allowNull (numberC ext) .undefined) ∈ receiptFormat ext := by
          simp [receiptFormat]
        have hnd : ((receiptFormat ext).map Prod.fst).Nodup := by
          show (["to", "from", "contractAddress", "timestamp", "gasUsed", "logsBloom",
            "transactionHash", "logs", "cumulativeGasUsed", "status", "type"] :
            List String).Nodup
          decide
        rcases (check_ok_iff _ _ _).mp hch with ⟨-, rfl⟩
        have hget := specResult_jsGet (receiptFormat ext) obj hnd "status" _ hmem
          .undefined (by rw [hnull]; rfl)
        rw [hget] at hcond
        simp [jsLooseNeNull, jsLooseEqNull] at hcond
    · rw [if_neg hcond]
      constructor
      · constructor
        · intro hbyz
          rw [hbyzget] at hbyz
          cases hbyz
        · intro hc
          exact absurd hc hcond
      · intro _
        exact hbyzmem

def wExt : ExtCollab := {
  getAddress := fun s => .ok s
  getAddressFromAccount := fun s => .ok s
  accessListify := fun v => .ok v
  bigNumFrom := fun v =>
    match v with
    | .str s => .ok (if s = "0x0" then 0 else 1)
    | .num q => .ok q.num
    | .bignum z => .ok z
    | _ => .error { message := "invalid BigNumber value" }
  toNumber := fun z => .ok z
}

def c9hash : String :=
  "0x" ++ "00112233445566778899aabbccddeeff" ++ "00112233445566778899aabbccddeeff" ++
    "00112233445566778899aabbccddeeff"

def c9obj : JSObject :=
  [("to", .null), ("from", .null), ("contractAddress", .null),
   ("timestamp", .str "1234567890.123456789"),
   ("gasUsed", .str "0x1"), ("logsBloom", .null),
   ("transactionHash", .str c9hash),
   ("logs", .arr []), ("cumulativeGasUsed", .str "0x1"),
   ("status", .str "0x1"), ("type", .num 2)]

def c9out : JSObject := ((receipt wExt c9obj).toOption).getD []

theorem claim_C9_witness :
    ((jsGet c9out "byzantium" = .bool true) ↔
      jsLooseNeNull (jsGet c9out "status") = true) ∧
    (jsGet c9obj "status" = .null → "byzantium" ∉ c9out.map Prod.fst) :=
  claim_C9_receipt_byzantium wExt c9obj c9out rfl

/- ### transactionResponse (claims C4 and C10) -/

/-- JS strict equality `value === q` against a number literal. -/
def jsStrictEqNum (v : JSValue) (q : ℚ) : Bool :=
  match v with
  | .num t => decide (t = q)
  | _ => false

/-- `isHexString(value)` on an arbitrary value: non-strings are never hex
strings. -/
def isHexStringJS (v : JSValue) : Bool :=
  match v with
  | .str s => isHexString s
  | _ => false

/-- The `formats.transaction` specification. -/
def transactionFormat (ext : ExtCollab) : Spec :=
  [("hash", hash48C),
   ("accessList", allowNull (accessListC ext) .null),
   ("from", addressC ext),
   ("gasLimit", bigNumberC ext),
   ("to", allowNull (addressC ext) .null),
   ("value", bigNumberC ext),
   ("data", dataC),
   ("r", allowNull uint256C .undefined),
   ("s", allowNull uint256C .undefined),
   ("v", allowNull (numberC ext) .undefined)]

/-- Rename `gas` to `gasLimit` (first in-place rewrite of
`transactionResponse`). -/
def renameGasToGasLimit (tx : JSObject) : JSObject :=
  if jsLooseNeNull (jsGet tx "gas") = true ∧ jsLooseEqNull (jsGet tx "gasLimit") = true
  then jsSet tx "gasLimit" (jsGet tx "gas") else tx

/-- Rewrite a truthy, zero-valued `to` to the canonical zero address;
`BigNumber.from(transaction.to)` can throw, which propagates. -/
def fixZeroTo (ext : ExtCollab) (tx : JSObject) : Except JSError JSObject :=
  if jsTruthy (jsGet tx "to") = true then
    (ext.bigNumFrom (jsGet tx "to")).map fun z =>
      if z = 0 then jsSet tx "to" (.str "0x0000000000000000000000000000000000000000")
      else tx
  else .ok tx

/-- Rename `input` to `data`. -/
def renameInputToData (tx : JSObject) : JSObject :=
  if jsLooseNeNull (jsGet tx "input") = true ∧ jsLooseEqNull (jsGet tx "data") = true
  then jsSet tx "data" (jsGet tx "input") else tx

/-- When both `to` and `creates` are loosely null, populate `creates` from
the transaction itself: `contractAddress` returns its argument unchanged,
so the raw object is assigned (snapshotted here, a live self-reference in
JS). -/
def populateCreates (tx : JSObject) : JSObject :=
  if jsLooseEqNull (jsGet tx "to") = true ∧ jsLooseEqNull (jsGet tx "creates") = true
  then jsSet tx "creates" (.object tx) else tx

/-- Default `accessList` to `[]` for type-1/2 transactions. -/
def defaultAccessList (tx : JSObject) : JSObject :=
  if (jsStrictEqNum (jsGet tx "type") 1 = true ∨ jsStrictEqNum (jsGet tx "type") 2 = true)
      ∧ jsLooseEqNull (jsGet tx "accessList") = true
  then jsSet tx "accessList" (.arr []) else tx

/-- The in-place rewrites `transactionResponse` performs on its raw
argument before coercion. -/
def preprocessTx (ext : ExtCollab) (tx0 : JSObject) : Except JSError JSObject :=
  match fixZeroTo ext (renameGasToGasLimit tx0) with
  | .error e => .error e
  | .ok tx2 => .ok (defaultAccessList (populateCreates (renameInputToData tx2)))

/-- JS `parseInt` applied to a finite number: truncation toward zero. -/
def jsParseInt (q : ℚ) : ℚ :=
  if 0 ≤ q then ((⌊q⌋ : ℤ) : ℚ) else ((-⌊-q⌋ : ℤ) : ℚ)

/-- The chainId derivation `transactionResponse` runs after `check`.  In
the legacy branch, `(result.v - 35) / 2` on a non-numeric non-null
`result.v` would be JS `NaN`; that case is unreachable for the
`transaction` specification, whose `v` coercer only produces numbers. -/
def postChainId (ext : ExtCollab) (tx : JSObject) (result : JSObject) :
    Except JSError JSObject :=
  if jsLooseNeNull (jsGet tx "chainId") = true then
    match (if isHexStringJS (jsGet tx "chainId") = true
           then (ext.bigNumFrom (jsGet tx "chainId")).bind fun z =>
             (ext.toNumber z).map fun n => JSValue.num (n : ℚ)
           else .ok (jsGet tx "chainId")) with
    | .error e => .error e
    | .ok c => .ok (jsSet result "chainId" c)
  else
    let c0 := jsGet tx "networkId"
    let c0 := if jsLooseEqNull c0 = true ∧ jsLooseEqNull (jsGet result "v") = true
              then jsGet tx "chainId" else c0
    match (if isHexStringJS c0 = true
           then (ext.bigNumFrom c0).bind fun z =>
             (ext.toNumber z).map fun n => JSValue.num (n : ℚ)
           else .ok c0) with
    | .error e => .error e
    | .ok c1 =>
      let c2 := if typeofNumber c1 = false ∧ jsLooseNeNull (jsGet result "v") = true then
          match jsGet result "v" with
          | .num q =>
            let cq := (q - 35) / 2
            let cq := if cq < 0 then 0 else cq
            JSValue.num (jsParseInt cq)
          | _ => JSValue.nan
        else c1
      let c3 := if typeofNumber c2 = false then JSValue.num 0 else c2
      .ok (jsSet result "chainId" c3)

/-- `Formatter.transactionResponse(transaction)`: in-place preprocessing
of the raw object, `check` against the `transaction` specification, then
the chainId derivation.  The result pairs the rewritten raw object — in
JS the very object the caller passed in — with the canonical record. -/
def transactionResponse (ext : ExtCollab) (tx : JSObject) :
    Except JSError (JSObject × JSObject) :=
  match preprocessTx ext tx with
  | .error e => .error e
  | .ok tx1 =>
    match check (transactionFormat ext) tx1 with
    | .error e => .error e
    | .ok result =>
      match postChainId ext tx1 result with
      | .error e => .error e
      | .ok final => .ok (tx1, final)

theorem renameGasToGasLimit_preserves (tx : JSObject) (k : String)
    (hk : k ≠ "gasLimit") : jsGet (renameGasToGasLimit tx) k = jsGet tx k := by
  unfold renameGasToGasLimit
  split
  · exact jsGet_jsSet_ne tx "gasLimit" k _ (fun h => hk h.symm)
  · rfl

theorem fixZeroTo_preserves (ext : ExtCollab) (tx tx' : JSObject)
    (h : fixZeroTo ext tx = .ok tx') (k : String) (hk : k ≠ "to") :
    jsGet tx' k = jsGet tx k := by
  unfold fixZeroTo at h
  split at h
  · rcases hb : ext.bigNumFrom (jsGet tx "to") with e | z <;> rw [hb] at h
    · cases h
    · dsimp only [Except.map] at h
      injection h with h
      subst h
      split
      · exact jsGet_jsSet_ne tx "to" k _ (fun hh => hk hh.symm)
      · rfl
  · injection h with h
    subst h
    rfl

theorem renameInputToData_preserves (tx : JSObject) (k : String)
    (hk : k ≠ "data") : jsGet (renameInputToData tx) k = jsGet tx k := by
  unfold renameInputToData
  split
  · exact jsGet_jsSet_ne tx "data" k _ (fun h => hk h.symm)
  · rfl

theorem populateCreates_preserves (tx : JSObject) (k : String)
    (hk : k ≠ "creates") : jsGet (populateCreates tx) k = jsGet tx k := by
  unfold populateCreates
  split
  · exact jsGet_jsSet_ne tx "creates" k _ (fun h => hk h.symm)
  · rfl

theorem defaultAccessList_preserves (tx : JSObject) (k : String)
    (hk : k ≠ "accessList") : jsGet (defaultAccessList tx) k = jsGet tx k := by
  unfold defaultAccessList
  split
  · exact jsGet_jsSet_ne tx "accessList" k _ (fun h => hk h.symm)
  · rfl

/-- The preprocessing only writes `gasLimit`, `to`, `data`, `creates` and
`accessList`; every other raw field is left unchanged. -/
theorem preprocessTx_preserves (ext : ExtCollab) (tx tx' : JSObject)
    (h : preprocessTx ext tx = .ok tx') (k : String)
    (h1 : k ≠ "gasLimit") (h2 : k ≠ "to") (h3 : k ≠ "data")
    (h4 : k ≠ "creates") (h5 : k ≠ "accessList") :
    jsGet tx' k = jsGet tx k := by
  unfold preprocessTx at h
  rcases hfix : fixZeroTo ext (renameGasToGasLimit tx) with e | tx2 <;> rw [hfix] at h
  · cases h
  · injection h with h
    subst h
    rw [defaultAccessList_preserves _ _ h5, populateCreates_preserves _ _ h4,
      renameInputToData_preserves _ _ h3, fixZeroTo_preserves ext _ _ hfix _ h2,
      renameGasToGasLimit_preserves _ _ h1]

theorem jsParseInt_clamp (x : ℚ) :
    jsParseInt (if x < 0 then 0 else x) = ((max 0 ⌊x⌋ : ℤ) : ℚ) := by
  by_cases hx : x < 0
  · rw [if_pos hx]
    have h0 : ⌊x⌋ < 0 := by
      rw [Int.floor_lt]
      exact_mod_cast hx
    rw [max_eq_left (le_of_lt h0)]
    unfold jsParseInt
    rw [if_pos le_rfl]
    simp
  · rw [if_neg hx]
    push_neg at hx
    have h0 : 0 ≤ ⌊x⌋ := Int.floor_nonneg.mpr hx
    rw [max_eq_right h0]
    unfold jsParseInt
    rw [if_pos hx]

theorem jsLooseEqNull_not_hex (v : JSValue) (h : jsLooseEqNull v = true) :
    isHexStringJS v = false := by
  cases v <;> simp_all [jsLooseEqNull, isHexStringJS]

theorem jsLooseEqNull_not_number (v : JSValue) (h : jsLooseEqNull v = true) :
    typeofNumber v = false := by
  cases v <;> simp_all [jsLooseEqNull, typeofNumber]


/-- In the legacy branch (loosely-null raw `chainId` and `networkId`),
`postChainId` always writes some `chainId` onto the record; it writes
`max 0 ⌊(v - 35) / 2⌋` when the record has a numeric `v`, and `0` when it
has no `v` at all. -/
theorem postChainId_legacy (ext : ExtCollab) (tx result final : JSObject)
    (hc : jsLooseEqNull (jsGet tx "chainId") = true)
    (hn : jsLooseEqNull (jsGet tx "networkId") = true)
    (h : postChainId ext tx result = .ok final) :
    (∃ c, final = jsSet result "chainId" c) ∧
    (∀ n : ℤ, jsGet result "v" = .num (n : ℚ) →
      final = jsSet result "chainId" (.num ((max 0 ⌊((n : ℚ) - 35) / 2⌋ : ℤ) : ℚ))) ∧
    (jsGet result "v" = .undefined →
      final = jsSet result "chainId" (.num 0)) := by
  unfold postChainId at h
  have houter : ¬ jsLooseNeNull (jsGet tx "chainId") = true := by
    simp [jsLooseNeNull, hc]
  rw [if_neg houter] at h
  dsimp only at h
  have hhexC : ¬ isHexStringJS (jsGet tx "chainId") = true := by
    rw [jsLooseEqNull_not_hex _ hc]; simp
  have hhexN : ¬ isHexStringJS (jsGet tx "networkId") = true := by
    rw [jsLooseEqNull_not_hex _ hn]; simp
  have hnumC : typeofNumber (jsGet tx "chainId") = false := jsLooseEqNull_not_number _ hc
  have hnumN : typeofNumber (jsGet tx "networkId") = false := jsLooseEqNull_not_number _ hn
  refine ⟨?_, ?_, ?_⟩
  · split at h
    · cases h
    · injection h with h
      exact ⟨_, h.symm⟩
  · intro n hn'
    rw [hn'] at h
    have hA : ¬ (jsLooseEqNull (jsGet tx "networkId") = true ∧
        jsLooseEqNull (JSValue.num (n : ℚ)) = true) := by
      simp [jsLooseEqNull]
    rw [if_neg hA] at h
    rw [if_neg hhexN] at h
    dsimp only at h
    have hB : typeofNumber (jsGet tx "networkId") = false ∧
        jsLooseNeNull (JSValue.num (n : ℚ)) = true :=
      ⟨hnumN, by simp [jsLooseNeNull, jsLooseEqNull]⟩
    rw [if_pos hB] at h
    have hC : ¬ typeofNumber
        (JSValue.num (jsParseInt
          (if ((n : ℚ) - 35) / 2 < 0 then 0 else ((n : ℚ) - 35) / 2))) = false := by
      simp [typeofNumber]
    rw [if_neg hC] at h
    injection h with h
    rw [← h, jsParseInt_clamp]
  · intro hu
    rw [hu] at h
    have hA : jsLooseEqNull (jsGet tx "networkId") = true ∧
        jsLooseEqNull JSValue.undefined = true := ⟨hn, rfl⟩
    rw [if_pos hA] at h
    rw [if_neg hhexC] at h
    dsimp only at h
    have hB : ¬ (typeofNumber (jsGet tx "chainId") = false ∧
        jsLooseNeNull JSValue.undefined = true) := by
      simp [jsLooseNeNull, jsLooseEqNull]
    rw [if_neg hB] at h
    rw [if_pos hnumC] at h
    injection h with h
    exact h.symm

/-- C4: when the raw transaction has a loosely-null `chainId` and
`networkId` and `transactionResponse` succeeds, the derived `chainId` in
the canonical record is `max 0 ⌊(v - 35) / 2⌋` whenever the record carries
a numeric `v` — in particular `v = 37` yields `chainId = 1` — and it
defaults to `0` when the record has no `v` at all. -/
theorem claim_C4_legacy_chainId (ext : ExtCollab) (tx tx1 record : JSObject)
    (hc : jsLooseEqNull (jsGet tx "chainId") = true)
    (hn : jsLooseEqNull (jsGet tx "networkId") = true)
    (h : transactionResponse ext tx = .ok (tx1, record)) :
    (∀ n : ℤ, jsGet record "v" = .num (n : ℚ) →
      jsGet record "chainId" = .num ((max 0 ⌊((n : ℚ) - 35) / 2⌋ : ℤ) : ℚ)) ∧
    (jsGet record "v" = .undefined → jsGet record "chainId" = .num 0) := by
  unfold transactionResponse at h
  rcases hpre : preprocessTx ext tx with e | tx1' <;> rw [hpre] at h <;> dsimp only at h
  · cases h
  rcases hch : check (transactionFormat ext) tx1' with e | r0 <;> rw [hch] at h <;>
    dsimp only at h
  · cases h
  rcases hpost : postChainId ext tx1' r0 with e | final <;> rw [hpost] at h <;>
    dsimp only at h
  · cases h
  injection h with h
  injection h with h1 h2
  subst h1
  subst h2
  have hc' : jsLooseEqNull (jsGet tx1' "chainId") = true := by
    rw [preprocessTx_preserves ext tx tx1' hpre "chainId"
      (by decide) (by decide) (by decide) (by decide) (by decide)]
    exact hc
  have hn' : jsLooseEqNull (jsGet tx1' "networkId") = true := by
    rw [preprocessTx_preserves ext tx tx1' hpre "networkId"
      (by decide) (by decide) (by decide) (by decide) (by decide)]
    exact hn
  obtain ⟨⟨c, hcset⟩, hleg1, hleg2⟩ := postChainId_legacy ext tx1' r0 final hc' hn' hpost
  have hvv : jsGet final "v" = jsGet r0 "v" := by
    rw [hcset]
    exact jsGet_jsSet_ne r0 "chainId" "v" c (by decide)
  constructor
  · intro n hv
    rw [hvv] at hv
    rw [hleg1 n hv]
    exact jsGet_jsSet_self r0 "chainId" _
  · intro hv
    rw [hvv] at hv
    rw [hleg2 hv]
    exact jsGet_jsSet_self r0 "chainId" _

/-- A raw transaction exercising both the preprocessing rewrites and the
legacy chainId derivation: it has `gas` but no `gasLimit`, no `to` (so
`creates` is populated), and `v = 37` with no `chainId`/`networkId`. -/
def c4tx : JSObject :=
  [("hash", .str c9hash), ("gas", .str "0x1"), ("from", .str "0xaa"),
   ("to", .null), ("value", .num 1), ("data", .str "0x"), ("v", .num 37)]

def c4out : JSObject × JSObject :=
  ((transactionResponse wExt c4tx).toOption).getD ([], [])

theorem claim_C4_witness :
    jsGet c4out.2 "v" = .num ((37 : ℤ) : ℚ) ∧
    jsGet c4out.2 "chainId" = .num ((max 0 ⌊(((37 : ℤ) : ℚ) - 35) / 2⌋ : ℤ) : ℚ) ∧
    jsGet c4out.2 "chainId" = .num 1 := by
  have h2 := (claim_C4_legacy_chainId wExt c4tx c4out.1 c4out.2 rfl rfl rfl).1 37 rfl
  have h3 : ((max 0 ⌊(((37 : ℤ) : ℚ) - 35) / 2⌋ : ℤ) : ℚ) = 1 := by
    rw [show ((((37 : ℤ) : ℚ) - 35) / 2 : ℚ) = 1 by norm_num]
    simp
  refine ⟨rfl, h2, ?_⟩
  rw [h2, h3]

/-- The spec's end-to-end raw transaction `{gas, to: "0x0", input, type: 1}`. -/
def c10tx : JSObject :=
  [("gas", .str "0x5208"), ("to", .str "0x0"),
   ("input", .str "0xabcd"), ("type", .num 1)]

/-- What the caller's object looks like after `transactionResponse`'s
preprocessing of `c10tx`: `gasLimit`, `data` and `accessList` written,
`to` rewritten to the zero address. -/
def c10txAfter : JSObject :=
  [("gas", .str "0x5208"),
   ("to", .str "0x0000000000000000000000000000000000000000"),
   ("input", .str "0xabcd"), ("type", .num 1),
   ("gasLimit", .str "0x5208"), ("data", .str "0xabcd"), ("accessList", .arr [])]

/-- C10: `transactionResponse` rewrites its raw input argument before
coercion, so the caller's object is not left unchanged: on the example
raw transaction it gains a `gasLimit` copied from `gas`, its zero `to` is
rewritten to the canonical zero address, `data` is copied from `input`
and `accessList` is defaulted to `[]`; on a raw object with no `to`,
`creates` is written (with the transaction object itself); and on a full
successful `transactionResponse` call the returned raw object differs
from the one passed in. -/
theorem claim_C10_transactionResponse_mutates_raw :
    preprocessTx wExt c10tx = .ok c10txAfter ∧
    c10txAfter ≠ c10tx ∧
    jsGet c10tx "gasLimit" = .undefined ∧ jsGet c10txAfter "gasLimit" = .str "0x5208" ∧
    jsGet c10tx "to" = .str "0x0" ∧
    jsGet c10txAfter "to" = .str "0x0000000000000000000000000000000000000000" ∧
    jsGet c10tx "data" = .undefined ∧ jsGet c10txAfter "data" = .str "0xabcd" ∧
    jsGet c10tx "accessList" = .undefined ∧ jsGet c10txAfter "accessList" = .arr [] ∧
    preprocessTx wExt ([] : JSObject) = .ok [("creates", .object ([] : JSObject))] ∧
    transactionResponse wExt c4tx = .ok c4out ∧
    jsGet c4tx "creates" = .undefined ∧
    (∃ flds, jsGet c4out.1 "creates" = .object flds) ∧
    c4out.1 ≠ c4tx := by
  refine ⟨rfl, ?_, rfl, rfl, rfl, rfl, rfl, rfl, rfl, rfl, rfl, rfl, rfl, ⟨_, rfl⟩, ?_⟩
  · intro hEq
    have h2 : jsGet c10txAfter "gasLimit" = jsGet c10tx "gasLimit" := by rw [hEq]
    rw [show jsGet c10txAfter "gasLimit" = .str "0x5208" from rfl,
        show jsGet c10tx "gasLimit" = .undefined from rfl] at h2
    cases h2
  · intro hEq
    have hf : jsGet c4out.1 "creates" = .object
        [("hash", .str c9hash), ("gas", .str "0x1"), ("from", .str "0xaa"),
         ("to", .null), ("value", .num 1), ("data", .str "0x"), ("v", .num 37),
         ("gasLimit", .str "0x1")] := rfl
    rw [hEq] at hf
    rw [show jsGet c4tx "creates" = .undefined from rfl] at hf
    cases hf
